import Mathlib

/-!
Verification of the JPEG marker-segment decoder/encoder of `jpegcomment`
(src/lib.rs, with the filter operation of src/main.rs).

Bytes are modelled as `Nat` values (values below 256 for genuine buffers);
byte buffers and payload views as `List Nat`.  A Rust slice `&data[a..b]`
becomes `(data.drop a).take (b - a)`.  The decoder's unchecked indexing
`data[offset]` panics in Rust when `offset` is out of range; this is
modelled by `DecodeResult.panicked`.  The `u16` subtraction `len - 2` in
the segment branch wraps around (release-mode semantics), modelled as
`(len + 65534) % 65536`.
-/

namespace Jpegcomment

/-- The element type `JpegElement` of src/lib.rs.  Payload views are
represented by the byte lists they denote. -/
inductive JpegElement where
  | Soi : JpegElement
  | Seg : Nat → List Nat → JpegElement
  | Comment : List Nat → JpegElement
  | ECS : List Nat → JpegElement
  | Restart : Nat → JpegElement
  | Eoi : JpegElement
deriving DecidableEq

/-- Decoder states of `Jpeg::deserialize` (enum `DecoderState` in src/lib.rs). -/
inductive DecoderState where
  | Init : DecoderState
  | SeenFF : DecoderState
  | InitEcs : DecoderState
  | SeenFFEcs : DecoderState
deriving DecidableEq

/-- Outcome of the decoder loop: a parsed element list (`Ok`), the
`JpegError::BufferTooShort` error, a Rust panic (out-of-range index or
`Option::unwrap` of `None`), or exhaustion of the iteration budget
(never reached from the top-level entry point, which supplies enough). -/
inductive DecodeResult where
  | ok : List JpegElement → DecodeResult
  | bufferTooShort : DecodeResult
  | panicked : DecodeResult
  | fuelOut : DecodeResult
deriving DecidableEq

/-- The loop body of `Jpeg::deserialize` (src/lib.rs).  `offset` is the
index of the byte about to be read (`data[offset]`); the Rust code's
post-increment is folded into the `offset + 1` / `offset + 3 + len` of
each continuation, so the bounds checks `check_read(size, offset + 2)`
and `check_read(size, offset + len)` of the source appear here as
`data.length < offset + 3` and `data.length < offset + 3 + len`.
`fuel` bounds the number of loop iterations; each iteration consumes at
least one byte, so `data.length + 1` iterations always suffice. -/
def deserAux (data : List Nat) : Nat → Nat → DecoderState → Option Nat → List JpegElement → DecodeResult
  | 0, _, _, _, _ => .fuelOut
  | fuel + 1, offset, state, ecsStart, elems =>
    match data[offset]? with
    | none => .panicked
    | some byte =>
      match state with
      | .Init =>
        if byte = 0xff then deserAux data fuel (offset + 1) .SeenFF ecsStart elems
        else deserAux data fuel (offset + 1) .Init ecsStart elems
      | .SeenFF =>
        if byte = 0x00 then deserAux data fuel (offset + 1) .Init ecsStart elems
        else if byte = 0xd8 then deserAux data fuel (offset + 1) .Init ecsStart (elems ++ [.Soi])
        else if byte = 0xd9 then .ok (elems ++ [.Eoi])
        else
          if data.length < offset + 3 then .bufferTooShort
          else
            let len := ((data[offset + 1]?).getD 0 * 256 + (data[offset + 2]?).getD 0 + 65534) % 65536
            if data.length < offset + 3 + len then .bufferTooShort
            else
              let payload := (data.drop (offset + 3)).take len
              if byte = 0xda then
                deserAux data fuel (offset + 3 + len) .InitEcs (some (offset + 3 + len)) (elems ++ [.Seg byte payload])
              else if byte = 0xfe then
                deserAux data fuel (offset + 3 + len) .Init ecsStart (elems ++ [.Comment payload])
              else
                deserAux data fuel (offset + 3 + len) .Init ecsStart (elems ++ [.Seg byte payload])
      | .InitEcs =>
        if byte = 0xff then deserAux data fuel (offset + 1) .SeenFFEcs ecsStart elems
        else deserAux data fuel (offset + 1) .InitEcs ecsStart elems
      | .SeenFFEcs =>
        if byte = 0x00 then deserAux data fuel (offset + 1) .InitEcs ecsStart elems
        else if byte = 0xd9 then
          match ecsStart with
          | none => .panicked
          | some s => .ok (elems ++ [.ECS ((data.drop s).take (offset - 1 - s)), .Eoi])
        else if 0xd0 ≤ byte ∧ byte < 0xd8 then
          match ecsStart with
          | none => .panicked
          | some s =>
            deserAux data fuel (offset + 1) .InitEcs (some (offset + 1))
              (elems ++ [.ECS ((data.drop s).take (offset - 1 - s)), .Restart byte])
        else deserAux data fuel (offset + 1) .SeenFFEcs ecsStart elems

/-- `Jpeg::deserialize` (src/lib.rs): run the decoder loop from the start
of the buffer in state `Init` with no entropy run pending. -/
def deserialize (data : List Nat) : DecodeResult :=
  deserAux data (data.length + 1) 0 .Init none []

/-- Big-endian byte pair of a `u16` value: `u16::to_be_bytes`. -/
def u16be (n : Nat) : List Nat := [n / 256 % 256, n % 256]

/-- `JpegElement::write` (src/lib.rs): the on-wire byte form of one
element.  The length field is `data.len() as u16 + 2u16`, which wraps
modulo 2^16; there is no error path besides the I/O one of the sink. -/
def JpegElement.write : JpegElement → List Nat
  | .Soi => [0xff, 0xd8]
  | .Eoi => [0xff, 0xd9]
  | .Restart nr => [0xff, nr]
  | .Seg nr d => [0xff, nr] ++ u16be ((d.length + 2) % 65536) ++ d
  | .Comment d => [0xff, 0xfe] ++ u16be ((d.length + 2) % 65536) ++ d
  | .ECS d => d

/-- `Jpeg::serialize` (src/lib.rs): write every element in order. -/
def serialize (elems : List JpegElement) : List Nat :=
  (elems.map JpegElement.write).flatten

/-- `Jpeg::delete_comment` (src/lib.rs): remove the first `Comment`
element and return its payload, leaving everything else in place. -/
def delete_comment : List JpegElement → Option (List Nat) × List JpegElement
  | [] => (none, [])
  | .Comment d :: rest => (some d, rest)
  | e :: rest =>
    let r := delete_comment rest
    (r.1, e :: r.2)

/-- The search predicate of `Jpeg::set_comment`: is this element a
`Seg(0xe0, _)`? -/
def isE0Seg : JpegElement → Bool
  | .Seg nr _ => nr == 0xe0
  | _ => false

/-- The insertion step of `Jpeg::set_comment`: place the new comment
right after the first `Seg(0xe0, _)` element, or at the end when no such
element exists (the `find`/`insert(idx + 1)`/`push` logic of the source). -/
def insertComment (c : List Nat) : List JpegElement → List JpegElement
  | [] => [.Comment c]
  | e :: rest =>
    if isE0Seg e then e :: .Comment c :: rest
    else e :: insertComment c rest

/-- `Jpeg::set_comment` (src/lib.rs): delete the first comment, then
insert the new one after the first `Seg(0xe0, _)` (or append it). -/
def set_comment (c : List Nat) (elems : List JpegElement) : Option (List Nat) × List JpegElement :=
  ((delete_comment elems).1, insertComment c (delete_comment elems).2)

/-- The `--anonymize` filter of `main` (src/main.rs): drop every
`Seg(tag, _)` whose tag lies in the range `0xe0..0xe7`, keep everything
else. -/
def anonymize (elems : List JpegElement) : List JpegElement :=
  elems.filterMap fun e =>
    match e with
    | .Seg tag _ => if 0xe0 ≤ tag ∧ tag < 0xe7 then none else some e
    | _ => some e

/-- Is this element a `Comment`?  (Used to state the claims about
`delete_comment`.) -/
def isComment : JpegElement → Bool
  | .Comment _ => true
  | _ => false

/-- Modelled from the spec: the retention predicate of the metadata
stripping operation — keep every element except a `Segment` whose marker
falls in the stripped range `0xe0..0xe7`. -/
def keepElem : JpegElement → Bool
  | .Seg tag _ => if 0xe0 ≤ tag ∧ tag < 0xe7 then false else true
  | _ => true

/-- Correctly byte-stuffed entropy data: every `0xff` byte is followed
by a `0x00` escape, so the run contains no marker boundary. -/
inductive Stuffed : List Nat → Prop
  | nil : Stuffed []
  | plain (b : Nat) (rest : List Nat) : b ≠ 0xff → Stuffed rest → Stuffed (b :: rest)
  | escape (rest : List Nat) : Stuffed rest → Stuffed (0xff :: 0x00 :: rest)

/-- Well-formed scan-region tail: entropy runs separated by restart
markers and terminated by `FF D9`. -/
inductive ScanTail : List Nat → Prop
  | eoi (run : List Nat) : Stuffed run → ScanTail (run ++ 0xff :: 0xd9 :: [])
  | restart (run : List Nat) (r : Nat) (rest : List Nat) :
      Stuffed run → 0xd0 ≤ r → r < 0xd8 → ScanTail rest →
      ScanTail (run ++ 0xff :: r :: rest)

/-- Well-formed JPEG buffers: marker items back to back with no
pre-marker garbage, no stray `FF 00`, segment length fields of at least
2, correctly stuffed entropy data, and nothing after the final `FF D9`. -/
inductive Wf : List Nat → Prop
  | eoi : Wf [0xff, 0xd9]
  | soi (rest : List Nat) : Wf rest → Wf (0xff :: 0xd8 :: rest)
  | seg (M L : Nat) (payload rest : List Nat) :
      M ≠ 0x00 → M ≠ 0xd8 → M ≠ 0xd9 → M ≠ 0xda →
      2 ≤ L → L < 65536 → payload.length = L - 2 → Wf rest →
      Wf (0xff :: M :: L / 256 :: L % 256 :: (payload ++ rest))
  | sos (L : Nat) (payload tail : List Nat) :
      2 ≤ L → L < 65536 → payload.length = L - 2 → ScanTail tail →
      Wf (0xff :: 0xda :: L / 256 :: L % 256 :: (payload ++ tail))

/-! Helper lemmas about serialization. -/

lemma serialize_nil : serialize [] = [] := rfl

lemma serialize_cons (e : JpegElement) (es : List JpegElement) :
    serialize (e :: es) = e.write ++ serialize es := by
  simp [serialize]

lemma serialize_append (a b : List JpegElement) :
    serialize (a ++ b) = serialize a ++ serialize b := by
  simp [serialize]

/-! Single-iteration unfolding lemmas for the decoder loop. -/

lemma step_panicked {data : List Nat} {fuel offset : Nat} {st : DecoderState}
    {ecs : Option Nat} {elems : List JpegElement} (h : data[offset]? = none) :
    deserAux data (fuel + 1) offset st ecs elems = .panicked := by
  simp [deserAux, h]

lemma step_init_other {data : List Nat} {fuel offset b : Nat}
    {ecs : Option Nat} {elems : List JpegElement}
    (h : data[offset]? = some b) (hb : b ≠ 0xff) :
    deserAux data (fuel + 1) offset .Init ecs elems
      = deserAux data fuel (offset + 1) .Init ecs elems := by
  simp [deserAux, h, hb]

lemma step_init_ff {data : List Nat} {fuel offset : Nat}
    {ecs : Option Nat} {elems : List JpegElement} (h : data[offset]? = some 0xff) :
    deserAux data (fuel + 1) offset .Init ecs elems
      = deserAux data fuel (offset + 1) .SeenFF ecs elems := by
  simp [deserAux, h]

lemma step_seenff_soi {data : List Nat} {fuel offset : Nat}
    {ecs : Option Nat} {elems : List JpegElement} (h : data[offset]? = some 0xd8) :
    deserAux data (fuel + 1) offset .SeenFF ecs elems
      = deserAux data fuel (offset + 1) .Init ecs (elems ++ [.Soi]) := by
  simp [deserAux, h]

lemma step_seenff_eoi {data : List Nat} {fuel offset : Nat}
    {ecs : Option Nat} {elems : List JpegElement} (h : data[offset]? = some 0xd9) :
    deserAux data (fuel + 1) offset .SeenFF ecs elems = .ok (elems ++ [.Eoi]) := by
  simp [deserAux, h]

lemma step_initEcs_other {data : List Nat} {fuel offset b : Nat}
    {ecs : Option Nat} {elems : List JpegElement}
    (h : data[offset]? = some b) (hb : b ≠ 0xff) :
    deserAux data (fuel + 1) offset .InitEcs ecs elems
      = deserAux data fuel (offset + 1) .InitEcs ecs elems := by
  simp [deserAux, h, hb]

lemma step_initEcs_ff {data : List Nat} {fuel offset : Nat}
    {ecs : Option Nat} {elems : List JpegElement} (h : data[offset]? = some 0xff) :
    deserAux data (fuel + 1) offset .InitEcs ecs elems
      = deserAux data fuel (offset + 1) .SeenFFEcs ecs elems := by
  simp [deserAux, h]

lemma step_ecs_stuff {data : List Nat} {fuel offset : Nat}
    {ecs : Option Nat} {elems : List JpegElement} (h : data[offset]? = some 0x00) :
    deserAux data (fuel + 1) offset .SeenFFEcs ecs elems
      = deserAux data fuel (offset + 1) .InitEcs ecs elems := by
  simp [deserAux, h]

lemma step_ecs_eoi {data : List Nat} {fuel offset s : Nat}
    {elems : List JpegElement} (h : data[offset]? = some 0xd9) :
    deserAux data (fuel + 1) offset .SeenFFEcs (some s) elems
      = .ok (elems ++ [.ECS ((data.drop s).take (offset - 1 - s)), .Eoi]) := by
  simp [deserAux, h]

lemma step_ecs_restart {data : List Nat} {fuel offset s b : Nat}
    {elems : List JpegElement}
    (h : data[offset]? = some b) (h1 : 0xd0 ≤ b) (h2 : b < 0xd8) :
    deserAux data (fuel + 1) offset .SeenFFEcs (some s) elems
      = deserAux data fuel (offset + 1) .InitEcs (some (offset + 1))
          (elems ++ [.ECS ((data.drop s).take (offset - 1 - s)), .Restart b]) := by
  have hb0 : b ≠ 0x00 := by omega
  have hb9 : b ≠ 0xd9 := by omega
  simp [deserAux, h, hb0, hb9, h1, h2]

lemma step_ecs_other {data : List Nat} {fuel offset b : Nat}
    {ecs : Option Nat} {elems : List JpegElement}
    (h : data[offset]? = some b) (hb0 : b ≠ 0x00) (hb9 : b ≠ 0xd9)
    (hbr : ¬(0xd0 ≤ b ∧ b < 0xd8)) :
    deserAux data (fuel + 1) offset .SeenFFEcs ecs elems
      = deserAux data fuel (offset + 1) .SeenFFEcs ecs elems := by
  simp [deserAux, h, hb0, hb9, hbr]

/-- Read a byte through a known decomposition of the buffer's tail. -/
lemma getElem_of_drop {data l : List Nat} {offset i b : Nat}
    (hdrop : data.drop offset = l) (h : l[i]? = some b) :
    data[offset + i]? = some b := by
  rw [← List.getElem?_drop, hdrop, h]

/-- Composite step: from state `Init` at a non-SOS segment
`FF M hi lo payload`, the decoder emits `Seg M payload` (or
`Comment payload` when `M = 0xfe`) and continues in `Init` after the
payload, two loop iterations later. -/
lemma step_seg {data payload rest : List Nat} {fuel offset M L : Nat}
    {ecs : Option Nat} {elems : List JpegElement}
    (hM0 : M ≠ 0x00) (hM8 : M ≠ 0xd8) (hM9 : M ≠ 0xd9) (hMa : M ≠ 0xda)
    (hL2 : 2 ≤ L) (hL : L < 65536) (hp : payload.length = L - 2)
    (hdrop : data.drop offset = 0xff :: M :: L / 256 :: L % 256 :: (payload ++ rest)) :
    deserAux data (fuel + 2) offset .Init ecs elems
      = deserAux data fuel (offset + 2 + L) .Init ecs
          (elems ++ [if M = 0xfe then .Comment payload else .Seg M payload]) := by
  have h0 : data[offset]? = some 0xff := getElem_of_drop hdrop (i := 0) (by simp)
  have h1 : data[offset + 1]? = some M := getElem_of_drop hdrop (i := 1) (by simp)
  have h2' : data[offset + 1 + 1]? = some (L / 256) := getElem_of_drop hdrop (i := 2) (by simp)
  have h3' : data[offset + 1 + 2]? = some (L % 256) := getElem_of_drop hdrop (i := 3) (by simp)
  have hlen : data.length = offset + 4 + payload.length + rest.length := by
    have := congrArg List.length hdrop
    simp [List.length_drop] at this
    omega
  have hdrop4 : data.drop (offset + 1 + 3) = payload ++ rest := by
    have h := congrArg (List.drop 4) hdrop
    rw [List.drop_drop] at h
    simpa using h
  have hfuel : fuel + 2 = (fuel + 1) + 1 := rfl
  rw [hfuel, step_init_ff h0]
  have hlenval : (L / 256 * 256 + L % 256 + 65534) % 65536 = L - 2 := by omega
  simp only [deserAux, h1, h2', h3', Option.getD_some]
  rw [if_neg hM0, if_neg hM8, if_neg hM9, if_neg (by omega : ¬ data.length < offset + 1 + 3)]
  rw [hlenval, if_neg (by omega : ¬ data.length < offset + 1 + 3 + (L - 2))]
  rw [hdrop4, List.take_left' hp, if_neg hMa]
  have harith : offset + 1 + 3 + (L - 2) = offset + 2 + L := by omega
  by_cases hMe : M = 0xfe
  · rw [if_pos hMe, harith, hMe]
    simp
  · rw [if_neg hMe, harith, if_neg hMe]

/-- Composite step: from state `Init` at a Start-of-Scan segment
`FF DA hi lo payload`, the decoder emits `Seg 0xda payload` and enters
entropy scanning with the run start recorded right after the payload. -/
lemma step_sos {data payload rest : List Nat} {fuel offset L : Nat}
    {ecs : Option Nat} {elems : List JpegElement}
    (hL2 : 2 ≤ L) (hL : L < 65536) (hp : payload.length = L - 2)
    (hdrop : data.drop offset = 0xff :: 0xda :: L / 256 :: L % 256 :: (payload ++ rest)) :
    deserAux data (fuel + 2) offset .Init ecs elems
      = deserAux data fuel (offset + 2 + L) .InitEcs (some (offset + 2 + L))
          (elems ++ [.Seg 0xda payload]) := by
  have h0 : data[offset]? = some 0xff := getElem_of_drop hdrop (i := 0) (by simp)
  have h1 : data[offset + 1]? = some 0xda := getElem_of_drop hdrop (i := 1) (by simp)
  have h2' : data[offset + 1 + 1]? = some (L / 256) := getElem_of_drop hdrop (i := 2) (by simp)
  have h3' : data[offset + 1 + 2]? = some (L % 256) := getElem_of_drop hdrop (i := 3) (by simp)
  have hlen : data.length = offset + 4 + payload.length + rest.length := by
    have := congrArg List.length hdrop
    simp [List.length_drop] at this
    omega
  have hdrop4 : data.drop (offset + 1 + 3) = payload ++ rest := by
    have h := congrArg (List.drop 4) hdrop
    rw [List.drop_drop] at h
    simpa using h
  have hfuel : fuel + 2 = (fuel + 1) + 1 := rfl
  rw [hfuel, step_init_ff h0]
  have hlenval : (L / 256 * 256 + L % 256 + 65534) % 65536 = L - 2 := by omega
  simp only [deserAux, h1, Option.getD_some, h2', h3']
  rw [if_neg (by omega : ¬ (0xda : Nat) = 0x00), if_neg (by omega : ¬ (0xda : Nat) = 0xd8),
    if_neg (by omega : ¬ (0xda : Nat) = 0xd9), if_neg (by omega : ¬ data.length < offset + 1 + 3)]
  rw [hlenval, if_neg (by omega : ¬ data.length < offset + 1 + 3 + (L - 2))]
  rw [hdrop4, List.take_left' hp, if_pos trivial]
  rw [show offset + 1 + 3 + (L - 2) = offset + 2 + L from by omega]

/-- Scanning a stuffed entropy run that ends at `FF D9` closes the run
with an `ECS` slice reaching from the recorded start to the `FF` and
terminates with `Eoi`.  `s` is the recorded run start, `k` the number of
entropy bytes already scanned. -/
lemma run_eoi {data rest : List Nat} {s : Nat} :
    ∀ {run : List Nat}, Stuffed run →
    ∀ {k fuel : Nat} (elems : List JpegElement),
    data.drop (s + k) = run ++ 0xff :: 0xd9 :: rest →
    run.length + 2 ≤ fuel →
    deserAux data fuel (s + k) .InitEcs (some s) elems
      = .ok (elems ++ [.ECS ((data.drop s).take (k + run.length)), .Eoi]) := by
  intro run hrun
  induction hrun with
  | nil =>
    intro k fuel elems hdrop hfuel
    obtain ⟨f, rfl⟩ : ∃ f, fuel = f + 2 := ⟨fuel - 2, by omega⟩
    have h0 : data[s + k]? = some 0xff := getElem_of_drop hdrop (i := 0) (by simp)
    have h1 : data[s + k + 1]? = some 0xd9 := getElem_of_drop hdrop (i := 1) (by simp)
    rw [show f + 2 = (f + 1) + 1 from rfl, step_initEcs_ff h0, step_ecs_eoi h1]
    rw [show s + k + 1 - 1 - s = k from by omega]
    simp
  | plain b rest' hb hst ih =>
    intro k fuel elems hdrop hfuel
    obtain ⟨f, rfl⟩ : ∃ f, fuel = f + 1 := ⟨fuel - 1, by omega⟩
    have h0 : data[s + k]? = some b := getElem_of_drop hdrop (i := 0) (by simp)
    rw [step_initEcs_other h0 hb]
    have hdrop' : data.drop (s + (k + 1)) = rest' ++ 0xff :: 0xd9 :: rest := by
      have h := congrArg (List.drop 1) hdrop
      rw [List.drop_drop] at h
      simpa using h
    have hfe : rest'.length + 2 ≤ f := by
      simp only [List.length_cons] at hfuel
      omega
    rw [show k + (b :: rest').length = (k + 1) + rest'.length from by
      simp only [List.length_cons]; omega]
    rw [show s + k + 1 = s + (k + 1) from rfl]
    exact ih elems hdrop' hfe
  | escape rest' hst ih =>
    intro k fuel elems hdrop hfuel
    obtain ⟨f, rfl⟩ : ∃ f, fuel = f + 2 := ⟨fuel - 2, by omega⟩
    have h0 : data[s + k]? = some 0xff := getElem_of_drop hdrop (i := 0) (by simp)
    have h1 : data[s + k + 1]? = some 0x00 := getElem_of_drop hdrop (i := 1) (by simp)
    rw [show f + 2 = (f + 1) + 1 from rfl, step_initEcs_ff h0, step_ecs_stuff h1]
    have hdrop' : data.drop (s + (k + 2)) = rest' ++ 0xff :: 0xd9 :: rest := by
      have h := congrArg (List.drop 2) hdrop
      rw [List.drop_drop] at h
      simpa using h
    have hfe : rest'.length + 2 ≤ f := by
      simp only [List.length_cons] at hfuel
      omega
    rw [show k + (0xff :: 0x00 :: rest').length = (k + 2) + rest'.length from by
      simp only [List.length_cons]; omega]
    rw [show s + k + 1 + 1 = s + (k + 2) from rfl]
    exact ih elems hdrop' hfe

/-- Scanning a stuffed entropy run that ends at a restart marker
`FF r` (`0xd0 ≤ r < 0xd8`) closes the run, emits `Restart r`, and
resumes scanning with a fresh run start right after the marker. -/
lemma run_restart {data rest : List Nat} {s t : Nat}
    (ht1 : 0xd0 ≤ t) (ht2 : t < 0xd8) :
    ∀ {run : List Nat}, Stuffed run →
    ∀ {k fuel : Nat} (elems : List JpegElement),
    data.drop (s + k) = run ++ 0xff :: t :: rest →
    run.length + 2 ≤ fuel →
    deserAux data fuel (s + k) .InitEcs (some s) elems
      = deserAux data (fuel - (run.length + 2)) (s + k + run.length + 2) .InitEcs
          (some (s + k + run.length + 2))
          (elems ++ [.ECS ((data.drop s).take (k + run.length)), .Restart t]) := by
  intro run hrun
  induction hrun with
  | nil =>
    intro k fuel elems hdrop hfuel
    obtain ⟨f, rfl⟩ : ∃ f, fuel = f + 2 := ⟨fuel - 2, by omega⟩
    have h0 : data[s + k]? = some 0xff := getElem_of_drop hdrop (i := 0) (by simp)
    have h1 : data[s + k + 1]? = some t := getElem_of_drop hdrop (i := 1) (by simp)
    rw [show f + 2 = (f + 1) + 1 from rfl, step_initEcs_ff h0, step_ecs_restart h1 ht1 ht2]
    rw [show s + k + 1 - 1 - s = k from by omega]
    simp only [List.length_nil, Nat.add_zero]
    rfl
  | plain b rest' hb hst ih =>
    intro k fuel elems hdrop hfuel
    obtain ⟨f, rfl⟩ : ∃ f, fuel = f + 1 := ⟨fuel - 1, by omega⟩
    have h0 : data[s + k]? = some b := getElem_of_drop hdrop (i := 0) (by simp)
    rw [step_initEcs_other h0 hb]
    have hdrop' : data.drop (s + (k + 1)) = rest' ++ 0xff :: t :: rest := by
      have h := congrArg (List.drop 1) hdrop
      rw [List.drop_drop] at h
      simpa using h
    have hfe : rest'.length + 2 ≤ f := by
      simp only [List.length_cons] at hfuel
      omega
    simp only [List.length_cons]
    rw [show k + (rest'.length + 1) = (k + 1) + rest'.length from by omega]
    rw [show f + 1 - (rest'.length + 1 + 2) = f - (rest'.length + 2) from by omega]
    rw [show s + k + (rest'.length + 1) + 2 = s + (k + 1) + rest'.length + 2 from by omega]
    rw [show s + k + 1 = s + (k + 1) from rfl]
    exact ih elems hdrop' hfe
  | escape rest' hst ih =>
    intro k fuel elems hdrop hfuel
    obtain ⟨f, rfl⟩ : ∃ f, fuel = f + 2 := ⟨fuel - 2, by omega⟩
    have h0 : data[s + k]? = some 0xff := getElem_of_drop hdrop (i := 0) (by simp)
    have h1 : data[s + k + 1]? = some 0x00 := getElem_of_drop hdrop (i := 1) (by simp)
    rw [show f + 2 = (f + 1) + 1 from rfl, step_initEcs_ff h0, step_ecs_stuff h1]
    have hdrop' : data.drop (s + (k + 2)) = rest' ++ 0xff :: t :: rest := by
      have h := congrArg (List.drop 2) hdrop
      rw [List.drop_drop] at h
      simpa using h
    have hfe : rest'.length + 2 ≤ f := by
      simp only [List.length_cons] at hfuel
      omega
    simp only [List.length_cons]
    rw [show k + (rest'.length + 1 + 1) = (k + 2) + rest'.length from by omega]
    rw [show f + 2 - (rest'.length + 1 + 1 + 2) = f - (rest'.length + 2) from by omega]
    rw [show s + k + (rest'.length + 1 + 1) + 2 = s + (k + 2) + rest'.length + 2 from by omega]
    rw [show s + k + 1 + 1 = s + (k + 2) from rfl]
    exact ih elems hdrop' hfe

/-- Decoding a well-formed scan tail from state `InitEcs` succeeds and
the elements it appends serialize back to exactly the scanned bytes. -/
lemma scan_ok {data : List Nat} :
    ∀ {tail : List Nat}, ScanTail tail →
    ∀ {s fuel : Nat} (elems : List JpegElement),
    data.drop s = tail → tail.length ≤ fuel →
    ∃ es', deserAux data fuel s .InitEcs (some s) elems = .ok (elems ++ es')
      ∧ serialize es' = tail := by
  intro tail htail
  induction htail with
  | eoi run hrun =>
    intro s fuel elems hdrop hfuel
    have hdrop0 : data.drop (s + 0) = run ++ 0xff :: 0xd9 :: [] := hdrop
    have hfuel' : run.length + 2 ≤ fuel := by
      simp only [List.length_append, List.length_cons, List.length_nil] at hfuel
      omega
    have hres := run_eoi hrun elems hdrop0 hfuel'
    rw [Nat.zero_add] at hres
    rw [show data.drop s = run ++ 0xff :: 0xd9 :: [] from hdrop, List.take_left] at hres
    exact ⟨[.ECS run, .Eoi], hres, by simp [serialize, JpegElement.write]⟩
  | restart run r rest hrun hr1 hr2 htail ih =>
    intro s fuel elems hdrop hfuel
    have hdrop0 : data.drop (s + 0) = run ++ 0xff :: r :: rest := hdrop
    have hfuel' : run.length + 2 ≤ fuel := by
      simp only [List.length_append, List.length_cons] at hfuel
      omega
    have hres := run_restart hr1 hr2 hrun elems hdrop0 hfuel'
    rw [Nat.zero_add, Nat.add_zero] at hres
    rw [show data.drop s = run ++ 0xff :: r :: rest from hdrop, List.take_left] at hres
    have hdropc : data.drop (s + run.length + 2) = rest := by
      have h := congrArg (List.drop (run.length + 2)) hdrop
      rw [List.drop_drop] at h
      rw [show run ++ 0xff :: r :: rest = (run ++ [0xff, r]) ++ rest from by simp] at h
      rw [List.drop_left' (by simp)] at h
      rw [show s + run.length + 2 = s + (run.length + 2) from by omega]
      exact h
    have hfuelc : rest.length ≤ fuel - (run.length + 2) := by
      simp only [List.length_append, List.length_cons] at hfuel
      omega
    obtain ⟨es'', hrun2, hser⟩ := ih (elems ++ [.ECS run, .Restart r]) hdropc hfuelc
    refine ⟨[.ECS run, .Restart r] ++ es'', ?_, ?_⟩
    · rw [hres, hrun2]
      simp
    · rw [serialize_append, hser]
      simp [serialize, JpegElement.write]

/-- Decoding a well-formed buffer tail from state `Init` succeeds and
the elements it appends serialize back to exactly the decoded bytes. -/
lemma wf_ok {data : List Nat} :
    ∀ {B : List Nat}, Wf B →
    ∀ {offset fuel : Nat} (ecs : Option Nat) (elems : List JpegElement),
    data.drop offset = B → B.length ≤ fuel →
    ∃ es', deserAux data fuel offset .Init ecs elems = .ok (elems ++ es')
      ∧ serialize es' = B := by
  intro B hwf
  induction hwf with
  | eoi =>
    intro offset fuel ecs elems hdrop hfuel
    obtain ⟨f, rfl⟩ : ∃ f, fuel = f + 2 := ⟨fuel - 2, by simp at hfuel; omega⟩
    have h0 : data[offset]? = some 0xff := getElem_of_drop hdrop (i := 0) (by simp)
    have h1 : data[offset + 1]? = some 0xd9 := getElem_of_drop hdrop (i := 1) (by simp)
    rw [show f + 2 = (f + 1) + 1 from rfl, step_init_ff h0, step_seenff_eoi h1]
    exact ⟨[.Eoi], rfl, by simp [serialize, JpegElement.write]⟩
  | soi rest hwf' ih =>
    intro offset fuel ecs elems hdrop hfuel
    obtain ⟨f, rfl⟩ : ∃ f, fuel = f + 2 := ⟨fuel - 2, by simp at hfuel; omega⟩
    have h0 : data[offset]? = some 0xff := getElem_of_drop hdrop (i := 0) (by simp)
    have h1 : data[offset + 1]? = some 0xd8 := getElem_of_drop hdrop (i := 1) (by simp)
    rw [show f + 2 = (f + 1) + 1 from rfl, step_init_ff h0, step_seenff_soi h1]
    have hdrop' : data.drop (offset + 2) = rest := by
      have h := congrArg (List.drop 2) hdrop
      rw [List.drop_drop] at h
      simpa using h
    have hfe : rest.length ≤ f := by
      simp only [List.length_cons] at hfuel
      omega
    obtain ⟨es'', hrun2, hser⟩ := ih ecs (elems ++ [.Soi]) hdrop' hfe
    refine ⟨.Soi :: es'', ?_, ?_⟩
    · rw [hrun2]
      simp
    · rw [serialize_cons, hser]
      simp [JpegElement.write]
  | seg M L payload rest hM0 hM8 hM9 hMa hL2 hL hp hwf' ih =>
    intro offset fuel ecs elems hdrop hfuel
    have hBlen : (0xff :: M :: L / 256 :: L % 256 :: (payload ++ rest)).length
        = 4 + payload.length + rest.length := by
      simp only [List.length_cons, List.length_append]
      omega
    obtain ⟨f, rfl⟩ : ∃ f, fuel = f + 2 := ⟨fuel - 2, by rw [hBlen] at hfuel; omega⟩
    rw [step_seg hM0 hM8 hM9 hMa hL2 hL hp hdrop]
    have hdropc : data.drop (offset + 2 + L) = rest := by
      have h := congrArg (List.drop (4 + (L - 2))) hdrop
      rw [List.drop_drop] at h
      rw [show (0xff : Nat) :: M :: L / 256 :: L % 256 :: (payload ++ rest)
          = ([0xff, M, L / 256, L % 256] ++ payload) ++ rest from by simp] at h
      rw [List.drop_left' (by simp [hp]; omega)] at h
      rw [show offset + 2 + L = offset + (4 + (L - 2)) from by omega]
      exact h
    have hfe : rest.length ≤ f := by
      rw [hBlen] at hfuel
      omega
    obtain ⟨es'', hrun2, hser⟩ :=
      ih ecs (elems ++ [if M = 0xfe then .Comment payload else .Seg M payload]) hdropc hfe
    refine ⟨(if M = 0xfe then .Comment payload else .Seg M payload) :: es'', ?_, ?_⟩
    · rw [hrun2]
      simp
    · rw [serialize_cons, hser]
      have hu : u16be ((payload.length + 2) % 65536) = [L / 256, L % 256] := by
        rw [show (payload.length + 2) % 65536 = L from by omega]
        simp only [u16be, List.cons.injEq, and_true]
        omega
      by_cases hMe : M = 0xfe
      · rw [if_pos hMe, hMe]
        simp only [JpegElement.write, hu]
        simp
      · rw [if_neg hMe]
        simp only [JpegElement.write, hu]
        simp
  | sos L payload tail hL2 hL hp htail =>
    intro offset fuel ecs elems hdrop hfuel
    have hBlen : (0xff :: 0xda :: L / 256 :: L % 256 :: (payload ++ tail)).length
        = 4 + payload.length + tail.length := by
      simp only [List.length_cons, List.length_append]
      omega
    obtain ⟨f, rfl⟩ : ∃ f, fuel = f + 2 := ⟨fuel - 2, by rw [hBlen] at hfuel; omega⟩
    rw [step_sos hL2 hL hp hdrop]
    have hdropc : data.drop (offset + 2 + L) = tail := by
      have h := congrArg (List.drop (4 + (L - 2))) hdrop
      rw [List.drop_drop] at h
      rw [show (0xff : Nat) :: 0xda :: L / 256 :: L % 256 :: (payload ++ tail)
          = ([0xff, 0xda, L / 256, L % 256] ++ payload) ++ tail from by simp] at h
      rw [List.drop_left' (by simp [hp]; omega)] at h
      rw [show offset + 2 + L = offset + (4 + (L - 2)) from by omega]
      exact h
    have hfe : tail.length ≤ f := by
      rw [hBlen] at hfuel
      omega
    obtain ⟨es'', hrun2, hser⟩ := scan_ok htail (elems ++ [.Seg 0xda payload]) hdropc hfe
    refine ⟨.Seg 0xda payload :: es'', ?_, ?_⟩
    · rw [hrun2]
      simp
    · rw [serialize_cons, hser]
      have hu : u16be ((payload.length + 2) % 65536) = [L / 256, L % 256] := by
        rw [show (payload.length + 2) % 65536 = L from by omega]
        simp only [u16be, List.cons.injEq, and_true]
        omega
      simp only [JpegElement.write, hu]
      simp

lemma ends_eoi_helper1 (elems : List JpegElement) :
    ∃ l, elems ++ [JpegElement.Eoi] = l ++ [JpegElement.Eoi] := ⟨elems, rfl⟩

lemma ends_eoi_helper2 (elems : List JpegElement) (x : JpegElement) :
    ∃ l, elems ++ [x, JpegElement.Eoi] = l ++ [JpegElement.Eoi] := ⟨elems ++ [x], by simp⟩

/-- Every successful run of the decoder loop returns an element list
whose last element is `Eoi`: the loop only breaks out at the two places
that have just pushed `Eoi`. -/
lemma deserAux_ok_last (data : List Nat) :
    ∀ (fuel : Nat) {offset : Nat} {st : DecoderState} {ecs : Option Nat}
      {elems es : List JpegElement},
    deserAux data fuel offset st ecs elems = .ok es → ∃ l, es = l ++ [.Eoi] := by
  intro fuel
  induction fuel with
  | zero =>
    intro offset st ecs elems es h
    simp [deserAux] at h
  | succ f ih =>
    intro offset st ecs elems es h
    simp only [deserAux] at h
    repeat' split at h
    all_goals
      first
        | exact ih h
        | (simp only [DecodeResult.ok.injEq] at h
           subst h
           first
             | exact ends_eoi_helper1 elems
             | exact ends_eoi_helper2 elems _)
        | simp at h

/-- C1 (counterexample): `serialize (deserialize B) = B` fails for an
accepted buffer.  The buffer `[0x00, 0xff, 0xd9]` decodes successfully
(the leading garbage byte `0x00` is silently skipped by the `Init`
state), but the decoded document serializes to `[0xff, 0xd9]`, not to
the original buffer. -/
theorem c1_roundtrip_counterexample :
    deserialize [0x00, 0xff, 0xd9] = .ok [.Eoi]
      ∧ serialize [.Eoi] ≠ [0x00, 0xff, 0xd9] := by
  decide

/-- C1 (amended): for every conformant buffer — one made of back-to-back
markers with no pre-marker garbage, no stray `FF 00`, length fields of
at least 2, correctly stuffed entropy runs, and nothing after the final
`FF D9` (the grammar `Wf`) — decoding succeeds and serializing the
resulting document reproduces the buffer byte-for-byte. -/
theorem c1_roundtrip_wellformed :
    ∀ B : List Nat, Wf B → ∃ es, deserialize B = .ok es ∧ serialize es = B := by
  intro B hwf
  obtain ⟨es', hrun, hser⟩ := @wf_ok B B hwf 0 (B.length + 1) none [] (by simp) (by omega)
  exact ⟨es', hrun, hser⟩

/-- C1 (witness): the amended round-trip applied to the concrete
conformant buffer `FF D8 FF D9`. -/
theorem c1_roundtrip_wellformed_witness :
    ∃ es, deserialize [0xff, 0xd8, 0xff, 0xd9] = .ok es
      ∧ serialize es = [0xff, 0xd8, 0xff, 0xd9] :=
  c1_roundtrip_wellformed [0xff, 0xd8, 0xff, 0xd9] (Wf.soi [0xff, 0xd9] Wf.eoi)

/-- C4 (counterexample): an accepted buffer whose serialization does not
start with `FF D8`: `[0xff, 0xd9]` decodes to just `EndOfImage`, and the
serialized document starts with `FF D9`. -/
theorem c4_soi_counterexample :
    deserialize [0xff, 0xd9] = .ok [.Eoi]
      ∧ (serialize [.Eoi]).take 2 ≠ [0xff, 0xd8] := by
  decide

/-- C4 (amended): for every buffer on which `deserialize` returns `Ok`,
the element sequence ends with `EndOfImage`, so its serialization ends
with `FF D9`; it need not start with `FF D8` (the decoder accepts
buffers with no Start-of-Image marker). -/
theorem c4_ends_with_eoi :
    ∀ (data : List Nat) (es : List JpegElement), deserialize data = .ok es →
      ∃ l, es = l ++ [.Eoi] ∧ serialize es = serialize l ++ [0xff, 0xd9] := by
  intro data es h
  simp only [deserialize] at h
  obtain ⟨l, rfl⟩ := deserAux_ok_last data (data.length + 1) h
  refine ⟨l, rfl, ?_⟩
  rw [serialize_append]
  simp [serialize, JpegElement.write]

/-- C4 (witness): the amended claim applied to the concrete buffer
`FF D9`. -/
theorem c4_ends_with_eoi_witness :
    ∃ l, ([JpegElement.Eoi] : List JpegElement) = l ++ [.Eoi]
      ∧ serialize [JpegElement.Eoi] = serialize l ++ [0xff, 0xd9] :=
  c4_ends_with_eoi [0xff, 0xd9] [.Eoi] (by decide)

/-- C5: a scan region `FF DA <header> <entropy1> FF D0 <entropy2> FF D9`
(with correctly stuffed entropy runs) decodes into
`Seg 0xda header, ECS entropy1, Restart 0xd0, ECS entropy2, Eoi`, the
entropy views holding exactly the bytes between the boundaries and
excluding the marker byte pairs themselves. -/
theorem c5_restart_boundary :
    ∀ (L : Nat) (hdr e1 e2 : List Nat), 2 ≤ L → L < 65536 → hdr.length = L - 2 →
    Stuffed e1 → Stuffed e2 →
    deserialize (0xff :: 0xda :: L / 256 :: L % 256 ::
        (hdr ++ (e1 ++ 0xff :: 0xd0 :: (e2 ++ 0xff :: 0xd9 :: []))))
      = .ok [.Seg 0xda hdr, .ECS e1, .Restart 0xd0, .ECS e2, .Eoi] := by
  intro L hdr e1 e2 hL2 hL hp h1 h2
  simp only [deserialize]
  generalize hdata : (0xff :: 0xda :: L / 256 :: L % 256 ::
      (hdr ++ (e1 ++ 0xff :: 0xd0 :: (e2 ++ 0xff :: 0xd9 :: [])))) = data
  have hlen : data.length = 4 + hdr.length + e1.length + 2 + e2.length + 2 := by
    rw [← hdata]
    simp only [List.length_cons, List.length_append, List.length_nil]
    omega
  obtain ⟨f, hf⟩ : ∃ f, data.length + 1 = f + 2 := ⟨data.length - 1, by omega⟩
  rw [hf]
  have hdrop0 : data.drop 0 = 0xff :: 0xda :: L / 256 :: L % 256 ::
      (hdr ++ (e1 ++ 0xff :: 0xd0 :: (e2 ++ 0xff :: 0xd9 :: []))) := by
    rw [List.drop_zero]
    exact hdata.symm
  rw [step_sos hL2 hL hp hdrop0]
  simp only [List.nil_append, Nat.zero_add]
  have hd1 : data.drop (2 + L) = e1 ++ 0xff :: 0xd0 :: (e2 ++ 0xff :: 0xd9 :: []) := by
    rw [← hdata]
    rw [show (0xff :: 0xda :: L / 256 :: L % 256 ::
        (hdr ++ (e1 ++ 0xff :: 0xd0 :: (e2 ++ 0xff :: 0xd9 :: []))))
      = ([0xff, 0xda, L / 256, L % 256] ++ hdr)
          ++ (e1 ++ 0xff :: 0xd0 :: (e2 ++ 0xff :: 0xd9 :: [])) from by simp]
    rw [List.drop_left' (by simp [hp]; omega)]
  have hr := @run_restart data (e2 ++ 0xff :: 0xd9 :: []) (2 + L) 0xd0 (by omega) (by omega)
      e1 h1 0 f [.Seg 0xda hdr] (by simpa using hd1) (by omega)
  rw [Nat.add_zero, Nat.zero_add] at hr
  rw [hd1, List.take_left] at hr
  rw [hr]
  simp only [List.cons_append, List.nil_append]
  have hd2 : data.drop (2 + L + e1.length + 2) = e2 ++ 0xff :: 0xd9 :: [] := by
    rw [← hdata]
    rw [show (0xff :: 0xda :: L / 256 :: L % 256 ::
        (hdr ++ (e1 ++ 0xff :: 0xd0 :: (e2 ++ 0xff :: 0xd9 :: []))))
      = (([0xff, 0xda, L / 256, L % 256] ++ hdr ++ e1) ++ [0xff, 0xd0])
          ++ (e2 ++ 0xff :: 0xd9 :: []) from by simp]
    rw [List.drop_left' (by simp [hp]; omega)]
  have he := @run_eoi data [] (2 + L + e1.length + 2) e2 h2 0 (f - (e1.length + 2))
      [.Seg 0xda hdr, .ECS e1, .Restart 0xd0] (by simpa using hd2) (by omega)
  rw [Nat.zero_add] at he
  rw [hd2, List.take_left] at he
  rw [he]
  simp

/-- C5 (witness): the restart-boundary decomposition applied to the
concrete scan region `FF DA 00 02 AA FF D0 FF D9`. -/
theorem c5_restart_boundary_witness :
    deserialize [0xff, 0xda, 0x00, 0x02, 0xaa, 0xff, 0xd0, 0xff, 0xd9]
      = .ok [.Seg 0xda [], .ECS [0xaa], .Restart 0xd0, .ECS [], .Eoi] := by
  have h := c5_restart_boundary 2 [] [0xaa] [] (by omega) (by omega) (by simp)
      (Stuffed.plain 0xaa [] (by omega) Stuffed.nil) Stuffed.nil
  simpa using h

/-- C2 (code bug): on buffers that run out before a marker is classified
— the spec's `[0x00; 100]` example, the empty buffer, or a lone `0xFF` —
`deserialize` indexes `data[offset]` past the end of the buffer and
panics instead of returning `BufferTooShort`; the bounds-checked
`check_read` path (last conjunct) is only reached once a marker byte has
introduced a length field. -/
theorem c2_truncation_panics :
    deserialize (List.replicate 100 0x00) = .panicked
      ∧ deserialize [] = .panicked
      ∧ deserialize [0xff] = .panicked
      ∧ deserialize [0xff, 0xe0] = .bufferTooShort := by
  decide

/-- C3 (code bug): the serializer has no `PayloadTooLarge` error path at
all; for a payload of 65534 bytes (`len + 2` = 65536 overflows the
16-bit length field) the emitted length field silently wraps to
`00 00` and the payload is written in full. -/
theorem c3_length_wraps :
    ∀ (nr : Nat) (payload : List Nat), payload.length = 65534 →
      JpegElement.write (.Seg nr payload) = [0xff, nr, 0x00, 0x00] ++ payload := by
  intro nr payload hp
  simp [JpegElement.write, u16be, hp]

/-- C3 (witness): the wrapped length field on a concrete 65534-byte
payload. -/
theorem c3_length_wraps_witness :
    JpegElement.write (.Seg 0xe1 (List.replicate 65534 0x61))
      = [0xff, 0xe1, 0x00, 0x00] ++ List.replicate 65534 0x61 :=
  c3_length_wraps 0xe1 (List.replicate 65534 0x61) (by rw [List.length_replicate])

lemma insertComment_after_e0 (c : List Nat) :
    ∀ (pre : List JpegElement) (d : List Nat) (suf : List JpegElement),
    (∀ e ∈ pre, isE0Seg e = false) →
    insertComment c (pre ++ .Seg 0xe0 d :: suf)
      = pre ++ .Seg 0xe0 d :: .Comment c :: suf := by
  intro pre
  induction pre with
  | nil =>
    intro d suf hpre
    simp [insertComment, isE0Seg]
  | cons e pre' ih =>
    intro d suf hpre
    have he : isE0Seg e = false := hpre e (by simp)
    simp only [List.cons_append, insertComment, he, Bool.false_eq_true, if_false,
      List.append_eq]
    rw [ih d suf fun x hx => hpre x (by simp [hx])]

lemma insertComment_no_e0 (c : List Nat) :
    ∀ (l : List JpegElement), (∀ e ∈ l, isE0Seg e = false) →
    insertComment c l = l ++ [.Comment c] := by
  intro l
  induction l with
  | nil => intro h; rfl
  | cons e rest ih =>
    intro h
    have he : isE0Seg e = false := h e (by simp)
    simp only [insertComment, he, Bool.false_eq_true, if_false, List.cons_append,
      List.append_eq]
    rw [ih fun x hx => h x (by simp [hx])]

/-- C6: `set_comment` returns whatever `delete_comment` returns, and its
element sequence is the post-deletion sequence with the new `Comment`
inserted right after the first `Seg 0xe0` (or appended when no `Seg
0xe0` exists). -/
theorem c6_set_comment_spec :
    ∀ (c : List Nat) (es : List JpegElement),
      (set_comment c es).1 = (delete_comment es).1
      ∧ (∀ (pre : List JpegElement) (d : List Nat) (suf : List JpegElement),
          (∀ e ∈ pre, isE0Seg e = false) →
          (delete_comment es).2 = pre ++ .Seg 0xe0 d :: suf →
          (set_comment c es).2 = pre ++ .Seg 0xe0 d :: .Comment c :: suf)
      ∧ ((∀ e ∈ (delete_comment es).2, isE0Seg e = false) →
          (set_comment c es).2 = (delete_comment es).2 ++ [.Comment c]) := by
  intro c es
  refine ⟨rfl, ?_, ?_⟩
  · intro pre d suf hpre hsplit
    show insertComment c (delete_comment es).2 = _
    rw [hsplit]
    exact insertComment_after_e0 c pre d suf hpre
  · intro hno
    show insertComment c (delete_comment es).2 = _
    exact insertComment_no_e0 c _ hno

/-- C6 (witness): on `Seg 0xe0 "J"` followed by `Seg 0xdb`, the new
comment lands between the two segments. -/
theorem c6_set_comment_spec_witness :
    (set_comment [0x68] [.Seg 0xe0 [0x4a], .Seg 0xdb [0x01]]).2
      = [.Seg 0xe0 [0x4a], .Comment [0x68], .Seg 0xdb [0x01]] := by
  have h := (c6_set_comment_spec [0x68] [.Seg 0xe0 [0x4a], .Seg 0xdb [0x01]]).2.1
      [] [0x4a] [.Seg 0xdb [0x01]] (by simp) (by decide)
  simpa using h

lemma delete_comment_no_comment :
    ∀ (es : List JpegElement), (∀ e ∈ es, isComment e = false) →
      delete_comment es = (none, es) := by
  intro es
  induction es with
  | nil => intro h; rfl
  | cons e rest ih =>
    intro h
    have he : isComment e = false := h e (by simp)
    have hrest := ih fun x hx => h x (by simp [hx])
    cases e with
    | Comment d => simp [isComment] at he
    | Soi => simp [delete_comment, hrest]
    | Seg nr d => simp [delete_comment, hrest]
    | ECS d => simp [delete_comment, hrest]
    | Restart nr => simp [delete_comment, hrest]
    | Eoi => simp [delete_comment, hrest]

lemma delete_comment_first :
    ∀ (pre : List JpegElement) (d : List Nat) (suf : List JpegElement),
    (∀ e ∈ pre, isComment e = false) →
    delete_comment (pre ++ .Comment d :: suf) = (some d, pre ++ suf) := by
  intro pre
  induction pre with
  | nil => intro d suf h; rfl
  | cons e pre' ih =>
    intro d suf h
    have he : isComment e = false := h e (by simp)
    have hih := ih d suf fun x hx => h x (by simp [hx])
    cases e with
    | Comment dd => simp [isComment] at he
    | Soi => simp [delete_comment, hih]
    | Seg nr dd => simp [delete_comment, hih]
    | ECS dd => simp [delete_comment, hih]
    | Restart nr => simp [delete_comment, hih]
    | Eoi => simp [delete_comment, hih]

/-- C7: `delete_comment` removes exactly the first `Comment` (returning
its payload), returns `none` leaving the list unchanged when no comment
exists, and hence a second call after removing the only comment returns
`none` and is a no-op. -/
theorem c7_delete_comment_spec :
    ∀ (es pre suf : List JpegElement) (d : List Nat),
      ((∀ e ∈ es, isComment e = false) → delete_comment es = (none, es))
      ∧ ((∀ e ∈ pre, isComment e = false) →
          delete_comment (pre ++ .Comment d :: suf) = (some d, pre ++ suf))
      ∧ ((∀ e ∈ pre, isComment e = false) → (∀ e ∈ suf, isComment e = false) →
          delete_comment (delete_comment (pre ++ .Comment d :: suf)).2
            = (none, pre ++ suf)) := by
  intro es pre suf d
  refine ⟨delete_comment_no_comment es, delete_comment_first pre d suf, ?_⟩
  intro hpre hsuf
  rw [delete_comment_first pre d suf hpre]
  refine delete_comment_no_comment (pre ++ suf) fun e he => ?_
  rcases List.mem_append.mp he with h | h
  · exact hpre e h
  · exact hsuf e h

/-- C7 (witness): on a document with exactly one comment, the first call
returns the payload and the second call on the result is a no-op
returning `none`. -/
theorem c7_delete_comment_spec_witness :
    delete_comment ([.Soi] ++ .Comment [0x41] :: [.Eoi]) = (some [0x41], [.Soi] ++ [.Eoi])
      ∧ delete_comment (delete_comment ([.Soi] ++ .Comment [0x41] :: [.Eoi])).2
          = (none, [.Soi] ++ [.Eoi]) := by
  have h := c7_delete_comment_spec [] [.Soi] [.Eoi] [0x41]
  exact ⟨h.2.1 (by decide), h.2.2 (by decide) (by decide)⟩

/-- C8 (counterexample): inside entropy data, after `FF 41` the byte
`0x41` is not retained in the eventual `EntropyData` view: the decoder
stays in the FF-seen state, so the following bare `D9` closes the run as
`[0xaa, 0xff]`, excluding `0x41`. -/
theorem c8_counterexample :
    deserialize [0xff, 0xda, 0x00, 0x02, 0xaa, 0xff, 0x41, 0xd9]
      = .ok [.Seg 0xda [], .ECS [0xaa, 0xff], .Eoi]
      ∧ (0x41 : Nat) ∉ [0xaa, 0xff] := by
  decide

/-- C8 (amended): inside entropy data, a `0xFF` followed by a byte that
is neither `0x00`, nor `0xD9`, nor a restart marker produces no element
and no error and does not close the run at that point, but the decoder
remains in the `SeenFFEcs` state (it does not return to `InitEcs`), so
the following byte is itself classified as a marker byte and need not be
contained in the `EntropyData` view emitted when the run closes. -/
theorem c8_seenffecs_step :
    ∀ (data : List Nat) (fuel offset : Nat) (ecs : Option Nat)
      (elems : List JpegElement) (b : Nat),
    data[offset]? = some b → b ≠ 0x00 → b ≠ 0xd9 → ¬(0xd0 ≤ b ∧ b < 0xd8) →
    deserAux data (fuel + 1) offset .SeenFFEcs ecs elems
      = deserAux data fuel (offset + 1) .SeenFFEcs ecs elems := by
  intro data fuel offset ecs elems b h hb0 hb9 hbr
  exact step_ecs_other h hb0 hb9 hbr

/-- C8 (witness): the marker-state step applied at the byte `0x41`. -/
theorem c8_seenffecs_step_witness :
    deserAux [0xff, 0x41] 2 1 .SeenFFEcs (some 0) []
      = deserAux [0xff, 0x41] 1 2 .SeenFFEcs (some 0) [] :=
  c8_seenffecs_step [0xff, 0x41] 1 1 (some 0) [] 0x41 (by decide) (by decide)
    (by decide) (by decide)

/-- C9: the metadata-stripping filter keeps exactly the elements allowed
by `keepElem` — every element other than a `Seg` whose marker lies in
the stripped range — preserving their relative order and payloads
(`List.filter` semantics). -/
theorem c9_strip_segments_filter :
    ∀ (es : List JpegElement), anonymize es = es.filter keepElem := by
  intro es
  induction es with
  | nil => rfl
  | cons e rest ih =>
    cases e with
    | Seg tag d =>
      by_cases htag : 0xe0 ≤ tag ∧ tag < 0xe7
      · simpa [anonymize, keepElem, htag, List.filterMap_cons, List.filter_cons] using ih
      · simpa [anonymize, keepElem, htag, List.filterMap_cons, List.filter_cons] using ih
    | Soi => simpa [anonymize, keepElem, List.filterMap_cons, List.filter_cons] using ih
    | Comment d => simpa [anonymize, keepElem, List.filterMap_cons, List.filter_cons] using ih
    | ECS d => simpa [anonymize, keepElem, List.filterMap_cons, List.filter_cons] using ih
    | Restart nr => simpa [anonymize, keepElem, List.filterMap_cons, List.filter_cons] using ih
    | Eoi => simpa [anonymize, keepElem, List.filterMap_cons, List.filter_cons] using ih

/-- C10: when the 2-byte big-endian length field is 0 or 1, the wrapping
`u16` subtraction makes the decoder demand `(L - 2) mod 2^16` (at least
65534) payload bytes, so it returns `BufferTooShort` whenever fewer than
that many bytes remain after the length field. -/
theorem c10_length_underflow :
    ∀ (M hi lo : Nat) (rest : List Nat),
      M ≠ 0x00 → M ≠ 0xd8 → M ≠ 0xd9 → hi * 256 + lo < 2 →
      65534 ≤ (hi * 256 + lo + 65534) % 65536
      ∧ (rest.length < (hi * 256 + lo + 65534) % 65536 →
          deserialize (0xff :: M :: hi :: lo :: rest) = .bufferTooShort) := by
  intro M hi lo rest hM0 hM8 hM9 hL
  constructor
  · omega
  · intro hshort
    simp only [deserialize]
    have h0 : (0xff :: M :: hi :: lo :: rest)[0]? = some 0xff := by simp
    have h1 : (0xff :: M :: hi :: lo :: rest)[0 + 1]? = some M := by simp
    have h2 : (0xff :: M :: hi :: lo :: rest)[0 + 1 + 1]? = some hi := by simp
    have h3 : (0xff :: M :: hi :: lo :: rest)[0 + 1 + 2]? = some lo := by simp
    have hlen : (0xff :: M :: hi :: lo :: rest).length = rest.length + 4 := by simp
    rw [hlen, show rest.length + 4 + 1 = (rest.length + 4) + 1 from rfl, step_init_ff h0]
    obtain ⟨f, hf⟩ : ∃ f, rest.length + 4 = f + 1 := ⟨rest.length + 3, rfl⟩
    rw [hf]
    simp only [deserAux, h1, h2, h3, Option.getD_some]
    rw [if_neg hM0, if_neg hM8, if_neg hM9]
    rw [if_neg (show ¬ (0xff :: M :: hi :: lo :: rest).length < 0 + 1 + 3 from by simp)]
    rw [if_pos (show (0xff :: M :: hi :: lo :: rest).length
        < 0 + 1 + 3 + ((hi * 256 + lo + 65534) % 65536) from by simp; omega)]

/-- C10 (witness): a zero length field with nothing after it yields
`BufferTooShort`. -/
theorem c10_length_underflow_witness :
    deserialize (0xff :: 0xe0 :: 0 :: 0 :: []) = .bufferTooShort :=
  (c10_length_underflow 0xe0 0 0 [] (by decide) (by decide) (by decide) (by decide)).2
    (by decide)

end Jpegcomment
